import Mathlib

/-!
Verification of the core subsystems of the bb-bot repository against its
natural-language specification: the single-writer database actor
(src/db/db_thread.rs, src/db/mod.rs), the bingo-epoch cache
(src/role/db/cache/read.rs, src/role/db/cache/write.rs), the session
state machine with backtracking (src/hob/menu.rs,
src/shared/menu/navigation.rs), the timeout supervisor
(src/shared/menu/timeout.rs), the conditional cache-write policy of
player_roles (src/role/request.rs), and pagination
(src/shared/menu/navigation.rs).

Rust machine integers (u8, usize, i64) are embedded as Nat / Int; the
operations involved (comparisons, small additions, division) stay far
from overflow in the source, and where the source saturates
(saturating_sub) the Nat truncated subtraction coincides with it.
Fallible SQL execution is modelled as total over the embedded store:
the rusqlite error paths correspond to I/O failures outside the model,
so an execute returning rusqlite Result here returns its Ok payload.
-/

namespace BBBot

/-! ## Pagination: PaginatedChunk (src/shared/menu/navigation.rs, lines 113-143) -/

/-- Embeds the struct PaginatedChunk; the Rust field range: Range of usize
is split into its two endpoints range_start and range_stop. -/
structure PaginatedChunk where
  range_start : Nat
  range_stop : Nat
  page : Nat
  total_pages : Nat
deriving DecidableEq, Repr

/-- Embeds PaginatedChunk::new. The Rust function asserts page_size > 0 and
then computes total_pages with usize div_ceil, whose defining formula for
unsigned integers is (length + page_size - 1) / page_size. -/
def PaginatedChunk.new (length page page_size : Nat) : PaginatedChunk :=
  let total_pages := (length + page_size - 1) / page_size
  let clamped_page := if total_pages = 0 then 0 else min page (total_pages - 1)
  let start_index := clamped_page * page_size
  let end_index := min (start_index + page_size) length
  { range_start := start_index
    range_stop := end_index
    page := start_index / page_size
    total_pages := total_pages }

/-! ## Shared types (src/shared/types.rs) -/

/-- Embeds struct BitSet: a byte-vector bit set; each list entry models one
u8 byte of the data field. -/
structure BitSet where
  data : List Nat
deriving DecidableEq, Repr

/-- Embeds BitSet::from_bytes. -/
def BitSet.from_bytes (bytes : List Nat) : BitSet :=
  { data := bytes }

/-- Embeds BitSet::set for value = true (the only form from_indexes uses):
grow the byte vector to cover the bit index, then or in the mask
1 shl (bit_index mod 8) at byte bit_index / 8. -/
def BitSet.setTrue (s : BitSet) (bit_index : Nat) : BitSet :=
  let byte_index := bit_index / 8
  let bit_offset := bit_index % 8
  let data :=
    if byte_index ≥ s.data.length then
      s.data ++ List.replicate (byte_index + 1 - s.data.length) 0
    else s.data
  { data := data.set byte_index (data.getD byte_index 0 ||| (1 <<< bit_offset)) }

/-- Embeds BitSet::from_indexes: start from max id / 8 + 1 zero bytes and
set every listed bit. -/
def BitSet.from_indexes (ids : List Nat) : BitSet :=
  let max := (ids.foldr Nat.max 0)
  ids.foldl (fun b id => b.setTrue id) { data := List.replicate (max / 8 + 1) 0 }

/-- Embeds BitSet::get_all_set. The Rust loop repeatedly extracts the lowest
set bit of each byte with trailing_zeros and clears it, which enumerates
exactly the set bit positions of each byte in ascending order; the
embedding produces that enumeration directly. -/
def BitSet.get_all_set (s : BitSet) : List Nat :=
  (s.data.enum.map (fun p =>
    ((List.range 8).filter (fun b => p.2.testBit b)).map (fun b => p.1 * 8 + b))).flatten

/-- Embeds enum BingoKind. -/
inductive BingoKind
  | Normal
  | Extreme
  | Secret
deriving DecidableEq, Repr

/-- Embeds BingoKind::from_u8. -/
def BingoKind.from_u8 (int : Nat) : BingoKind :=
  match int with
  | 1 => .Extreme
  | 2 => .Secret
  | _ => .Normal

/-- Embeds struct Bingo. -/
structure Bingo where
  kind_specific_id : Nat
  kind : BingoKind
  unique_id : Option Nat
deriving DecidableEq, Repr

/-- Embeds Bingo::get_id: unique_id if present, else kind_specific_id. -/
def Bingo.get_id (b : Bingo) : Nat :=
  b.unique_id.getD b.kind_specific_id

/-- The all-defaults Bingo value used by the unwrap_or_default fallback in
the cache request bodies (numeric fields 0, kind Normal, unique_id absent). -/
def Bingo.fallback : Bingo :=
  { kind_specific_id := 0, kind := .Normal, unique_id := none }

/-! ## Database store

One record per table the verified requests touch. Each SQL table keyed by
a primary-key column is an association list from that key; INSERT OR
REPLACE, SELECT ... WHERE key=?, and DELETE ... WHERE key=? become
insert-replacing, lookup and delete on the list. Nullable columns are
Option-valued. -/

/-- SELECT by primary key: the first (unique) binding of the key. -/
def tableLookup {κ α : Type} [BEq κ] (t : List (κ × α)) (k : κ) : Option α :=
  (t.find? (fun e => e.1 == k)).map Prod.snd

/-- DELETE by primary key. -/
def tableDelete {κ α : Type} [BEq κ] (t : List (κ × α)) (k : κ) : List (κ × α) :=
  t.filter (fun e => e.1 != k)

/-- INSERT OR REPLACE on a primary-key column. -/
def tableInsert {κ α : Type} [BEq κ] (t : List (κ × α)) (k : κ) (v : α) : List (κ × α) :=
  (k, v) :: tableDelete t k

/-- The slice of the SQLite database the verified requests read and write.
current_bingo_global is the single row with id = 1, collapsed to the triple
(current_bingo, current_bingo_starts, current_bingo_ends); none models
either an absent row or any of the three columns being NULL, matching the
flatten in GetCurrentBingo. bingo_kind_id_map maps a unique bingo id to
(bingo_kind, kind_specific_id). The three cache tables are keyed by uuid
and store (updated_after_bingo, payload) with nullable payloads. -/
structure DbState where
  current_bingo_global : Option (Nat × Int × Int)
  bingo_kind_id_map : List (Nat × (Nat × Nat))
  role_completions_cache : List (String × (Nat × Option (List Nat)))
  role_bingo_rank_cache : List (String × (Nat × Option Nat))
  role_immortal_cache : List (String × (Nat × Option Bool))
deriving DecidableEq, Repr

/-! ## Shared read requests (src/shared/db/read.rs) -/

/-- Embeds the per-id body of GetBingoData::execute: query bingo_kind_id_map
for the unique id; on a hit the row yields kind_specific_id, the kind from
bingo_kind, and unique_id = the queried bingo column; on a miss the
fallback Bingo with kind_specific_id = id, kind Normal, no unique_id. -/
def GetBingoData.lookupOne (s : DbState) (id : Nat) : Bingo :=
  match tableLookup s.bingo_kind_id_map id with
  | some (bingo_kind, kind_specific_id) =>
    { kind_specific_id := kind_specific_id
      kind := BingoKind.from_u8 bingo_kind
      unique_id := some id }
  | none =>
    { kind_specific_id := id, kind := .Normal, unique_id := none }

/-- Embeds GetBingoData::execute over a list of ids. -/
def GetBingoData.execute (bingo_ids : List Nat) (s : DbState) : List Bingo :=
  bingo_ids.map (GetBingoData.lookupOne s)

/-- Embeds GetCurrentBingo::execute: read the current_bingo_global row
(absent or any NULL column gives none), then resolve the stored id through
GetBingoData (pop of the one-element vector is its last element). -/
def GetCurrentBingo.execute (s : DbState) : Option (Bingo × Int × Int) :=
  match s.current_bingo_global with
  | none => none
  | some (bingo_id, start, stop) =>
    ((GetBingoData.execute [bingo_id] s).getLast?).map (fun b => (b, start, stop))

/-- The epoch value every cache request derives:
GetCurrentBingo.execute(conn)?.unwrap_or_default() destructured to
current_bingo, then current_bingo.get_id(). -/
def currentBingoId (s : DbState) : Nat :=
  (((GetCurrentBingo.execute s).getD (Bingo.fallback, 0, 0)).1).get_id

/-! ## Cache read requests (src/role/db/cache/read.rs) -/

/-- Embeds CachedCompletions::execute: fetch the row for the uuid (NULL
bingo_set defaulting to the empty byte vector at row-mapping time), fetch
the current bingo; if the current id exceeds the stored stamp delete the
row and return none, else return the stored bit set; absent row returns
none. The pair is (state after the request, returned value). -/
def CachedCompletions.execute (uuid : String) (s : DbState) :
    DbState × Option BitSet :=
  let cached := tableLookup s.role_completions_cache uuid
  let current_bingo_id := currentBingoId s
  match cached with
  | some (updated_after, bingo_bytes) =>
    if current_bingo_id > updated_after then
      ({ s with role_completions_cache := tableDelete s.role_completions_cache uuid }, none)
    else
      (s, some (BitSet.from_bytes (bingo_bytes.getD [])))
  | none => (s, none)

/-- Embeds CachedBingoRank::execute, same shape as CachedCompletions over
role_bingo_rank_cache with a NULL rank defaulting to 0. -/
def CachedBingoRank.execute (uuid : String) (s : DbState) :
    DbState × Option Nat :=
  let cached := tableLookup s.role_bingo_rank_cache uuid
  let current_bingo_id := currentBingoId s
  match cached with
  | some (updated_after, rank) =>
    if current_bingo_id > updated_after then
      ({ s with role_bingo_rank_cache := tableDelete s.role_bingo_rank_cache uuid }, none)
    else
      (s, some (rank.getD 0))
  | none => (s, none)

/-- Embeds CachedImmortal::execute: the row is deleted and none returned
only when the current id exceeds the stamp AND has_achieved is false; in
every other row-present case the stored flag is returned unchanged. -/
def CachedImmortal.execute (uuid : String) (s : DbState) :
    DbState × Option Bool :=
  let cached := tableLookup s.role_immortal_cache uuid
  let current_bingo_id := currentBingoId s
  match cached with
  | some (updated_after, has_achieved) =>
    if current_bingo_id > updated_after ∧ ¬ (has_achieved.getD false) then
      ({ s with role_immortal_cache := tableDelete s.role_immortal_cache uuid }, none)
    else
      (s, some (has_achieved.getD false))
  | none => (s, none)

/-! ## Cache write requests (src/role/db/cache/write.rs)

Each write fetches the current bingo and INSERT OR REPLACEs the row
stamped with it. The Rust binds the current_bingo value as the
updated_after_bingo column parameter; its column value is the bingo
identifier the read side compares against with get_id. -/

/-- Embeds CacheCompletions::execute. -/
def CacheCompletions.execute (uuid : String) (completions : BitSet) (s : DbState) : DbState :=
  let current_bingo_id := currentBingoId s
  { s with role_completions_cache :=
      tableInsert s.role_completions_cache uuid (current_bingo_id, some completions.data) }

/-- Embeds CacheBingoRank::execute. -/
def CacheBingoRank.execute (uuid : String) (rank : Nat) (s : DbState) : DbState :=
  let current_bingo_id := currentBingoId s
  { s with role_bingo_rank_cache :=
      tableInsert s.role_bingo_rank_cache uuid (current_bingo_id, some rank) }

/-- Embeds CacheImmortal::execute. -/
def CacheImmortal.execute (uuid : String) (has_achieved : Bool) (s : DbState) : DbState :=
  let current_bingo_id := currentBingoId s
  { s with role_immortal_cache :=
      tableInsert s.role_immortal_cache uuid (current_bingo_id, some has_achieved) }

/-! ## Storage actor (src/db/db_thread.rs, src/db/mod.rs)

The channel is FIFO; the actor thread body is
while let Some(request) = rx.blocking_recv() { request.execute(&mut conn) }.
The embedding models the drained channel contents as a list of the typed
requests above (the erased boxed requests of one shared transport), and
the loop as their sequential execution threading the single connection. -/

/-- The typed requests sharing the actor channel, erased to one transport
type exactly as the boxed dyn ErasedDbRequest values are. -/
inductive DbReq
  | cachedCompletions (uuid : String)
  | cachedBingoRank (uuid : String)
  | cachedImmortal (uuid : String)
  | cacheCompletions (uuid : String) (completions : BitSet)
  | cacheBingoRank (uuid : String) (rank : Nat)
  | cacheImmortal (uuid : String) (has_achieved : Bool)
deriving DecidableEq, Repr

/-- The replies sent back on each request's private one-shot channel. -/
inductive DbReply
  | unit
  | optBitSet (r : Option BitSet)
  | optNat (r : Option Nat)
  | optBool (r : Option Bool)
deriving DecidableEq, Repr

/-- RequestWrapper::execute_boxed: run the inner typed execute against the
connection and produce the reply for the one-shot channel. -/
def executeReq (r : DbReq) (s : DbState) : DbState × DbReply :=
  match r with
  | .cachedCompletions uuid =>
    let (s', v) := CachedCompletions.execute uuid s
    (s', .optBitSet v)
  | .cachedBingoRank uuid =>
    let (s', v) := CachedBingoRank.execute uuid s
    (s', .optNat v)
  | .cachedImmortal uuid =>
    let (s', v) := CachedImmortal.execute uuid s
    (s', .optBool v)
  | .cacheCompletions uuid completions =>
    (CacheCompletions.execute uuid completions s, .unit)
  | .cacheBingoRank uuid rank =>
    (CacheBingoRank.execute uuid rank s, .unit)
  | .cacheImmortal uuid has_achieved =>
    (CacheImmortal.execute uuid has_achieved s, .unit)

/-- The actor loop over the drained channel contents: dequeue one request
at a time, execute it fully against the single connection, reply, and only
then dequeue the next. Returns the final connection state and the replies
in submission order. -/
def actorRun (queue : List DbReq) (s : DbState) : DbState × List DbReply :=
  match queue with
  | [] => (s, [])
  | r :: rest =>
    let (s1, reply) := executeReq r s
    let (s2, replies) := actorRun rest s1
    (s2, reply :: replies)

/-! ## Session state machine (src/hob/menu.rs, src/shared/menu/navigation.rs)

HobEditState is the tagged union of menu states; the boxed referrer_state
of the Rust ViewEntryState and ViewSubentryState becomes a direct optional
child (heap indirection is invisible to the value semantics). -/

/-- Embeds enum HobEditState with the fields of SelectEntryState,
ViewEntryState and ViewSubentryState inlined. -/
inductive HobEditState
  | SelectEntry (page : Nat) (search_query : Option String)
  | ViewEntry (id : Nat) (page : Nat) (referrer_state : Option HobEditState)
  | ViewSubentry (id : Nat) (entry_id : Nat) (referrer_state : Option HobEditState)

/-- Embeds BacktrackState::take_referrer for the two variants implementing
the trait; SelectEntryState carries no referrer. -/
def HobEditState.take_referrer : HobEditState → Option HobEditState
  | .ViewEntry _ _ r => r
  | .ViewSubentry _ _ r => r
  | .SelectEntry _ _ => none

/-- Embeds BacktrackState::take_referrer_or: the taken referrer, or the
supplied default when none exists. -/
def HobEditState.take_referrer_or (s : HobEditState) (default : HobEditState) : HobEditState :=
  s.take_referrer.getD default

/-- Embeds Backtrack::update_state for HobEditState: replace the state with
new_state, then, when the new variant implements BacktrackState, store the
previous state as its referrer (set_referrer overwrites the Option); the
SelectEntry arm of the match does nothing, so the previous state is
dropped there. -/
def HobEditState.update_state (self new_state : HobEditState) : HobEditState :=
  match new_state with
  | .ViewEntry id page _ => .ViewEntry id page (some self)
  | .ViewSubentry id entry_id _ => .ViewSubentry id entry_id (some self)
  | .SelectEntry page search_query => .SelectEntry page search_query

/-! ## Interaction dispatch (src/hob/interaction.rs, lines 130-156)

A per-variant handler receives mutable access to the state carried by the
current variant and returns Result of MenuChange; the component function
applies the returned state change only on success. The embedding passes
the handler as a function from the session state to (the state the
handler leaves behind through its in-place mutations, the returned
Result). The menu message payloads are irrelevant to state evolution and
are embedded structurally. -/

/-- Embeds enum MessageEdit with the rendered menu payloads dropped. -/
inductive MessageEdit
  | Interaction
  | Direct
  | NoEdit
deriving DecidableEq, Repr

/-- Embeds struct MenuChange over HobEditState. -/
structure MenuChange where
  new_state : Option HobEditState
  update_referrer_state : Bool
  message : MessageEdit

/-- Embeds MenuChange::new. -/
def MenuChange.mkNew (new_state : HobEditState) (message : MessageEdit) : MenuChange :=
  { new_state := some new_state, update_referrer_state := false, message := message }

/-- Embeds MenuChange::update_state. -/
def MenuChange.mkUpdateState (new_state : HobEditState) (message : MessageEdit) : MenuChange :=
  { new_state := some new_state, update_referrer_state := true, message := message }

/-- Embeds MenuChange::message. -/
def MenuChange.mkMessage (message : MessageEdit) : MenuChange :=
  { new_state := none, update_referrer_state := false, message := message }

/-- Embeds MenuChange::none. -/
def MenuChange.mkNone : MenuChange :=
  { new_state := none, update_referrer_state := false, message := .NoEdit }

/-- One interaction handler as seen by component: from the current session
state to the state its in-place mutations leave behind plus its returned
Result. A handler that never touches the state in place returns the input
state unchanged in the first component. -/
def HobHandler : Type :=
  HobEditState → HobEditState × Except String MenuChange

/-- Embeds the component function of src/hob/interaction.rs: run the
matching handler on the session state; on error propagate it with the
question-mark operator, leaving the session state as the handler left it;
on success apply the optional state change, via update_state when
update_referrer_state is requested. Returns the session state after
handling and the Result the caller sees. -/
def component (handler : HobHandler) (state : HobEditState) :
    HobEditState × Except String MessageEdit :=
  let (state', res) := handler state
  match res with
  | .error e => (state', .error e)
  | .ok change =>
    let state'' :=
      match change.new_state with
      | some st =>
        if change.update_referrer_state then HobEditState.update_state state' st else st
      | none => state'
    (state'', .ok change.message)

/-- Embeds the goto_page arm of select_entry::handle_component
(src/hob/interaction/select_entry.rs, lines 33-43): first mutate
session_state.page in place according to the direction argument, then call
generate, whose database access can fail; the Result of that call is
abstracted as the generate_result parameter, and its error is returned
after the page mutation already happened. -/
def selectEntryGotoPage (direction : String) (generate_result : Except String Unit) :
    HobHandler :=
  fun state =>
    match state with
    | .SelectEntry page search_query =>
      let page' :=
        match direction with
        | "next" => page + 1
        | "prev" => page - 1
        | _ => 0
      (.SelectEntry page' search_query,
        generate_result.map (fun _ => MenuChange.mkMessage .Interaction))
    | other => (other, .error "Invalid interaction: Unexpected action")

/-- Embeds the back arm of view_entry::handle_component: take the referrer
(or the default root SelectEntry state), generate its menu (abstracted as
generate_result), and request the state replacement through
MenuChange::new. The take happens before the fallible generate, mirroring
the source order, but take on the local binding does not mutate the
session state. -/
def viewEntryBack (generate_result : Except String Unit) : HobHandler :=
  fun state =>
    match state with
    | .ViewEntry id page referrer_state =>
      let new_state :=
        (HobEditState.ViewEntry id page referrer_state).take_referrer_or
          (.SelectEntry 0 none)
      (.ViewEntry id page referrer_state,
        generate_result.map (fun _ => MenuChange.mkNew new_state .Interaction))
    | other => (other, .error "Invalid interaction: Unexpected action")

/-! ## Timeout supervisor (src/shared/menu/timeout.rs, lines 65-93)

After the inactivity sleep wins the race against resets, the spawned task
removes the session id from the registry map under the registry lock, and
only a successful removal (Some) proceeds to the invalidate edit. The
registry is an association list from session id to session value; the
lock serializes the map operations, so a race of expiry against an
explicit close is an interleaving of whole removal steps. -/

/-- HashMap::remove: the removed value, if any, and the remaining map. -/
def registryRemove {α : Type} (reg : List (Nat × α)) (session_id : Nat) :
    Option α × List (Nat × α) :=
  (tableLookup reg session_id, tableDelete reg session_id)

/-- The body of the spawned timeout task after its sleep elapses: remove
the session; if remove returned the session, perform the invalidate
(disable-controls) edit. The Bool records whether the edit was performed. -/
def timeoutElapse {α : Type} (reg : List (Nat × α)) (session_id : Nat) :
    List (Nat × α) × Bool :=
  match registryRemove reg session_id with
  | (some _, reg') => (reg', true)
  | (none, reg') => (reg', false)

/-- The removal paths that can race for one registry: a timeout expiry for
some session, or an explicit close (plain removal with no disable edit). -/
inductive SessionStep
  | elapse (session_id : Nat)
  | close (session_id : Nat)
deriving DecidableEq, Repr

/-- One serialized registry step; the Bool records whether that step
performed the disable edit. -/
def sessionStepRun {α : Type} (reg : List (Nat × α)) (step : SessionStep) :
    List (Nat × α) × Bool :=
  match step with
  | .elapse session_id => timeoutElapse reg session_id
  | .close session_id => ((registryRemove reg session_id).2, false)

/-- A serialized run of racing removal steps, logging each step's disable
effect. -/
def sessionSteps {α : Type} (reg : List (Nat × α)) :
    List SessionStep → List (Nat × α) × List (SessionStep × Bool)
  | [] => (reg, [])
  | step :: rest =>
    let (reg', performed) := sessionStepRun reg step
    let (regF, log) := sessionSteps reg' rest
    (regF, (step, performed) :: log)

/-- How many times a run performed the disable edit for one session id. -/
def disableCount (log : List (SessionStep × Bool)) (session_id : Nat) : Nat :=
  (log.filter (fun e => e.1 == SessionStep.elapse session_id && e.2)).length

/-! ## Conditional cache-write policy of player_roles
(src/role/request.rs, lines 289-327)

The bingo-completions portion of player_roles: compute bingo_ended from
the authoritative end timestamp, look the completions up in the cache; on
a hit use the cached bit set without issuing any write; on a miss fetch
from the external API (the fetched list is a parameter, as the API is
outside the model) and issue a CacheCompletions request if and only if
the bingo has ended or the fetched completions contain the current
bingo's id. Returns the storage requests the fragment issues and the
completion ids it proceeds with. -/
def playerRolesCompletionsStep (uuid : String) (now bingo_end : Int)
    (current_bingo_id : Nat) (cache_result : Option BitSet) (fetched : List Nat) :
    List DbReq × List Nat :=
  let bingo_ended := decide (now > bingo_end)
  match cache_result with
  | some bitset => ([], bitset.get_all_set)
  | none =>
    if bingo_ended || fetched.contains current_bingo_id then
      ([DbReq.cacheCompletions uuid (BitSet.from_indexes fetched)], fetched)
    else
      ([], fetched)

/-! ## Startup (src/db/db_thread.rs; src/main.rs, lines 50-58)

initialise_database opens the database file, sets the foreign_keys
pragma, and runs the three idempotent create-if-absent table batches; any
failure aborts with the error. The file-system and SQL outcomes of the
five steps are parameters of the model. -/

/-- The five fallible steps of initialise_database, in source order. -/
structure InitOutcomes where
  open_db : Except String Unit
  pragma_foreign_keys : Except String Unit
  hob_tables : Except String Unit
  role_tables : Except String Unit
  shared_tables : Except String Unit

/-- Embeds initialise_database: the steps chained with the question-mark
operator; the first failure is returned, success only when all five
succeed. -/
def initialise_database (o : InitOutcomes) : Except String Unit := do
  o.open_db
  o.pragma_foreign_keys
  o.hob_tables
  o.role_tables
  o.shared_tables

/-- Embeds the thread body of start_db_thread: on initialisation failure,
send the error on the readiness channel and return without entering the
request loop (no request is ever served); on success, signal readiness
and serve the channel until it closes. conn0 is the connection state
initialisation produces; the second component lists the replies actually
produced by the loop. -/
def start_db_thread (o : InitOutcomes) (conn0 : DbState) (queue : List DbReq) :
    Except String Unit × List DbReply :=
  match initialise_database o with
  | .error e => (.error e, [])
  | .ok _ => (.ok (), (actorRun queue conn0).2)

/-- Embeds the startup match in main over the awaited readiness channel:
none models the one-shot sender dropped by a panicking thread; the
question-mark operator on the matched Result makes main return the error
and the process exit before serving anything. -/
def main_startup (ready : Option (Except String Unit)) : Except String Unit :=
  match ready with
  | some (.ok _) => .ok ()
  | some (.error e) => .error ("Failed to initialise database thread: " ++ e)
  | none => .error "Database thread panicked during initialisation"

/-! ## Theorems -/

/-- Looking up the key just inserted finds the inserted value. -/
lemma tableLookup_insert_self {κ α : Type} [BEq κ] [LawfulBEq κ]
    (t : List (κ × α)) (k : κ) (v : α) :
    tableLookup (tableInsert t k v) k = some v := by
  simp [tableLookup, tableInsert, List.find?_cons]

/-- Looking up the key just deleted finds nothing. -/
lemma tableLookup_delete_self {κ α : Type} [BEq κ] [LawfulBEq κ]
    (t : List (κ × α)) (k : κ) :
    tableLookup (tableDelete t k) k = none := by
  rw [tableLookup, Option.map_eq_none', List.find?_eq_none]
  intro x hx
  have hmem := (List.mem_filter.mp hx).2
  simp only [bne_iff_ne, ne_eq, decide_eq_true_eq] at hmem
  simp [hmem]

/-- Deletion of any key preserves absence of a key. -/
lemma tableLookup_delete_none {κ α : Type} [BEq κ] [LawfulBEq κ]
    (t : List (κ × α)) (k k' : κ) (h : tableLookup t k = none) :
    tableLookup (tableDelete t k') k = none := by
  rw [tableLookup, Option.map_eq_none', List.find?_eq_none]
  intro x hx
  have hx' : x ∈ t := List.mem_of_mem_filter hx
  rw [tableLookup, Option.map_eq_none', List.find?_eq_none] at h
  exact h x hx'

/-- Deleting an absent key leaves the table unchanged. -/
lemma tableDelete_of_lookup_none {κ α : Type} [BEq κ] [LawfulBEq κ]
    (t : List (κ × α)) (k : κ) (h : tableLookup t k = none) :
    tableDelete t k = t := by
  rw [tableLookup, Option.map_eq_none', List.find?_eq_none] at h
  rw [tableDelete]
  apply List.filter_eq_self.mpr
  intro x hx
  have := h x hx
  simp only [beq_iff_eq] at this
  simp [this]

/-- Ceiling-division bounds for the usize div_ceil formula. -/
lemma ceil_div_bounds (l ps : Nat) (h : 0 < ps) :
    l ≤ ((l + ps - 1) / ps) * ps ∧
    (0 < l → (((l + ps - 1) / ps) - 1) * ps < l) ∧
    (l = 0 → (l + ps - 1) / ps = 0) := by
  have hdm := Nat.div_add_mod (l + ps - 1) ps
  have hmlt : (l + ps - 1) % ps < ps := Nat.mod_lt _ h
  refine ⟨?_, ?_, ?_⟩
  · rcases Nat.eq_zero_or_pos ((l + ps - 1) / ps) with h0 | hpos
    · rw [h0] at hdm ⊢
      simp only [Nat.mul_zero, Nat.zero_add, Nat.zero_mul] at hdm ⊢
      omega
    · obtain ⟨n, hn⟩ : ∃ n, (l + ps - 1) / ps = n + 1 :=
        ⟨(l + ps - 1) / ps - 1, (Nat.succ_pred_eq_of_pos hpos).symm⟩
      rw [hn] at hdm ⊢
      rw [Nat.mul_succ] at hdm
      rw [Nat.succ_mul]
      rw [Nat.mul_comm ps n] at hdm
      generalize n * ps = X at hdm ⊢
      omega
  · intro hl
    rcases Nat.eq_zero_or_pos ((l + ps - 1) / ps) with h0 | hpos
    · rw [h0] at hdm ⊢
      simp only [Nat.mul_zero, Nat.zero_add, Nat.zero_sub, Nat.zero_mul]
      omega
    · obtain ⟨n, hn⟩ : ∃ n, (l + ps - 1) / ps = n + 1 :=
        ⟨(l + ps - 1) / ps - 1, (Nat.succ_pred_eq_of_pos hpos).symm⟩
      rw [hn] at hdm ⊢
      rw [Nat.mul_succ] at hdm
      simp only [Nat.add_sub_cancel]
      rw [Nat.mul_comm ps n] at hdm
      generalize n * ps = X at hdm ⊢
      omega
  · intro hl
    subst hl
    simp only [Nat.zero_add]
    exact Nat.div_eq_of_lt (Nat.sub_lt h Nat.one_pos)

/-- The page field of PaginatedChunk.new is the clamped page: the
start-index division undoes the multiplication exactly. -/
lemma paginated_chunk_new_page (length page page_size : Nat) (h : 0 < page_size) :
    (PaginatedChunk.new length page page_size).page =
      (if (length + page_size - 1) / page_size = 0 then 0
       else min page ((length + page_size - 1) / page_size - 1)) := by
  simp only [PaginatedChunk.new]
  split
  · simp
  · exact Nat.mul_div_cancel _ h

/-- C10: for every length, requested page and page_size > 0,
PaginatedChunk::new returns total_pages = ceil(length / page_size)
(the div_ceil value, bounded below and above by the ceiling
characterisation), page = the requested page clamped to the last existing
page (0 when no page exists), range = page * page_size ..
min(page * page_size + page_size, length), a range always within
0..length, and a request past the end yields the last page. -/
theorem paginated_chunk_new_spec (length page page_size : Nat) (h : 0 < page_size) :
    (PaginatedChunk.new length page page_size).total_pages = (length + page_size - 1) / page_size ∧
    length ≤ (PaginatedChunk.new length page page_size).total_pages * page_size ∧
    (0 < length →
      ((PaginatedChunk.new length page page_size).total_pages - 1) * page_size < length) ∧
    (PaginatedChunk.new length page page_size).page =
      (if (PaginatedChunk.new length page page_size).total_pages = 0 then 0
       else min page ((PaginatedChunk.new length page page_size).total_pages - 1)) ∧
    (PaginatedChunk.new length page page_size).range_start =
      (PaginatedChunk.new length page page_size).page * page_size ∧
    (PaginatedChunk.new length page page_size).range_stop =
      min ((PaginatedChunk.new length page page_size).page * page_size + page_size) length ∧
    (PaginatedChunk.new length page page_size).range_start ≤
      (PaginatedChunk.new length page page_size).range_stop ∧
    (PaginatedChunk.new length page page_size).range_stop ≤ length ∧
    ((PaginatedChunk.new length page page_size).total_pages ≠ 0 →
      (PaginatedChunk.new length page page_size).total_pages ≤ page →
      (PaginatedChunk.new length page page_size).page =
        (PaginatedChunk.new length page page_size).total_pages - 1) := by
  have htotal : (PaginatedChunk.new length page page_size).total_pages =
      (length + page_size - 1) / page_size := rfl
  have hpage := paginated_chunk_new_page length page page_size h
  have hbounds := ceil_div_bounds length page_size h
  have hstart : (PaginatedChunk.new length page page_size).range_start =
      (PaginatedChunk.new length page page_size).page * page_size := by
    simp only [PaginatedChunk.new]
    split
    · simp
    · rw [Nat.mul_div_cancel _ h]
  have hstop : (PaginatedChunk.new length page page_size).range_stop =
      min ((PaginatedChunk.new length page page_size).page * page_size + page_size) length := by
    rw [← hstart]
    rfl
  have hstart_le_len : (PaginatedChunk.new length page page_size).range_start ≤ length := by
    rw [hstart, hpage]
    split
    · simp
    · rename_i htne
      have hl : 0 < length := by
        rcases Nat.eq_zero_or_pos length with h0 | hpos
        · exact absurd (hbounds.2.2 h0) htne
        · exact hpos
      calc min page ((length + page_size - 1) / page_size - 1) * page_size
          ≤ ((length + page_size - 1) / page_size - 1) * page_size :=
            Nat.mul_le_mul_right _ (Nat.min_le_right _ _)
        _ ≤ length := Nat.le_of_lt (hbounds.2.1 hl)
  refine ⟨htotal, ?_, ?_, by rw [hpage, htotal], hstart, hstop, ?_, ?_, ?_⟩
  · rw [htotal]
    exact hbounds.1
  · intro hl
    rw [htotal]
    exact hbounds.2.1 hl
  · have h1 : (PaginatedChunk.new length page page_size).range_start ≤
        (PaginatedChunk.new length page page_size).page * page_size + page_size := by
      rw [hstart]
      exact Nat.le_add_right _ _
    rw [hstop]
    exact Nat.le_min.mpr ⟨h1, hstart_le_len⟩
  · rw [hstop]
    exact Nat.min_le_right _ _
  · intro htne hple
    rw [hpage, htotal]
    rw [htotal] at htne hple
    rw [if_neg htne]
    exact Nat.min_eq_right (Nat.le_trans (Nat.sub_le _ _) hple)

/-- Witness for C10 at length 13, page 7, page_size 5: the 7th page is
clamped to the last page (index 2) covering 10..13 of 3 total pages. -/
theorem paginated_chunk_new_spec_witness :
    (0 : Nat) < 5 ∧
    13 ≤ (PaginatedChunk.new 13 7 5).total_pages * 5 ∧
    (PaginatedChunk.new 13 7 5).range_stop ≤ 13 ∧
    ((PaginatedChunk.new 13 7 5).total_pages ≠ 0 →
      (PaginatedChunk.new 13 7 5).total_pages ≤ 7 →
      (PaginatedChunk.new 13 7 5).page = (PaginatedChunk.new 13 7 5).total_pages - 1) :=
  ⟨by decide, (paginated_chunk_new_spec 13 7 5 (by decide)).2.1,
    (paginated_chunk_new_spec 13 7 5 (by decide)).2.2.2.2.2.2.2.1,
    (paginated_chunk_new_spec 13 7 5 (by decide)).2.2.2.2.2.2.2.2⟩

/-- A cache write does not touch current_bingo_global or bingo_kind_id_map,
so the epoch derived by the next request is unchanged. -/
lemma currentBingoId_cacheCompletions (uuid : String) (fact : BitSet) (s : DbState) :
    currentBingoId (CacheCompletions.execute uuid fact s) = currentBingoId s := rfl

/-- Read-after-write on the completions cache: the read finds the row the
write stamped with the write-time epoch, the epoch is unchanged, the stamp
is not exceeded, and the stored bytes decode to the written bit set. -/
lemma read_after_write_completions (s : DbState) (uuid : String) (fact : BitSet) :
    CachedCompletions.execute uuid (CacheCompletions.execute uuid fact s) =
      (CacheCompletions.execute uuid fact s, some fact) := by
  have hlook : tableLookup
      (CacheCompletions.execute uuid fact s).role_completions_cache uuid =
      some (currentBingoId s, some fact.data) := by
    simp only [CacheCompletions.execute]
    exact tableLookup_insert_self _ _ _
  simp only [CachedCompletions.execute, hlook, currentBingoId_cacheCompletions]
  rw [if_neg (lt_irrefl _)]
  rfl

/-- A small concrete store used by the witnesses: current epoch 5, with
cache rows stamped at epochs 3 and 5. -/
def sampleDb : DbState :=
  { current_bingo_global := some (5, 0, 100)
    bingo_kind_id_map := []
    role_completions_cache := [("alice", (3, some [7])), ("bob", (5, some [1, 2]))]
    role_bingo_rank_cache := [("alice", (5, some 2))]
    role_immortal_cache := [("alice", (3, some true)), ("carol", (3, some false))] }

/-- C1: the storage actor executes the submitted requests strictly one at a
time in channel order: a run of a concatenated queue is the run of the
first part followed by the run of the second part started from the state
the first part left behind, with the replies concatenated in order; for
two requests A then B, B executes against exactly the state A's full
execution produced; and a write followed by a read of the same key
observes the write (read-your-writes). -/
theorem actor_fifo_order (q1 q2 : List DbReq) (s : DbState) :
    actorRun (q1 ++ q2) s =
      ((actorRun q2 (actorRun q1 s).1).1,
        (actorRun q1 s).2 ++ (actorRun q2 (actorRun q1 s).1).2) ∧
    (∀ (a b : DbReq) (s0 : DbState),
      actorRun [a, b] s0 =
        ((executeReq b (executeReq a s0).1).1,
          [(executeReq a s0).2, (executeReq b (executeReq a s0).1).2])) ∧
    (∀ (uuid : String) (fact : BitSet) (s0 : DbState),
      (actorRun [DbReq.cacheCompletions uuid fact, DbReq.cachedCompletions uuid] s0).2 =
        [DbReply.unit, DbReply.optBitSet (some fact)]) := by
  refine ⟨?_, ?_, ?_⟩
  · induction q1 generalizing s with
    | nil => simp [actorRun]
    | cons r rest ih =>
      simp only [List.cons_append, actorRun, List.append_eq]
      rw [ih]
  · intro a b s0
    rfl
  · intro uuid fact s0
    have h := read_after_write_completions s0 uuid fact
    simp [actorRun, executeReq, h]

/-- C2: a non-latch cache lookup (CachedCompletions, CachedBingoRank) with
a stored row stamped e under current epoch c deletes the row and returns
none when c > e, returns the stored fact when c ≤ e, and returns none
leaving the store unchanged when no row exists. -/
theorem cache_read_epoch_invalidation (s : DbState) (uuid : String) :
    (∀ e payload, tableLookup s.role_completions_cache uuid = some (e, payload) →
      (currentBingoId s > e →
        CachedCompletions.execute uuid s =
          ({ s with role_completions_cache := tableDelete s.role_completions_cache uuid },
            none)) ∧
      (currentBingoId s ≤ e →
        CachedCompletions.execute uuid s = (s, some (BitSet.from_bytes (payload.getD []))))) ∧
    (tableLookup s.role_completions_cache uuid = none →
      CachedCompletions.execute uuid s = (s, none)) ∧
    (∀ e rank, tableLookup s.role_bingo_rank_cache uuid = some (e, rank) →
      (currentBingoId s > e →
        CachedBingoRank.execute uuid s =
          ({ s with role_bingo_rank_cache := tableDelete s.role_bingo_rank_cache uuid },
            none)) ∧
      (currentBingoId s ≤ e →
        CachedBingoRank.execute uuid s = (s, some (rank.getD 0)))) ∧
    (tableLookup s.role_bingo_rank_cache uuid = none →
      CachedBingoRank.execute uuid s = (s, none)) := by
  refine ⟨?_, ?_, ?_, ?_⟩
  · intro e payload hrow
    constructor
    · intro hgt
      simp only [CachedCompletions.execute, hrow]
      rw [if_pos hgt]
    · intro hle
      simp only [CachedCompletions.execute, hrow]
      rw [if_neg (Nat.not_lt.mpr hle)]
  · intro hrow
    simp only [CachedCompletions.execute, hrow]
  · intro e rank hrow
    constructor
    · intro hgt
      simp only [CachedBingoRank.execute, hrow]
      rw [if_pos hgt]
    · intro hle
      simp only [CachedBingoRank.execute, hrow]
      rw [if_neg (Nat.not_lt.mpr hle)]
  · intro hrow
    simp only [CachedBingoRank.execute, hrow]

/-- Witness for C2 on the concrete store (current epoch 5): the stale
completions row of alice (stamp 3) is deleted with a none result, and the
fresh rank row of alice (stamp 5) is served. -/
theorem cache_read_epoch_invalidation_witness :
    CachedCompletions.execute "alice" sampleDb =
      ({ sampleDb with
          role_completions_cache := tableDelete sampleDb.role_completions_cache "alice" },
        none) ∧
    CachedBingoRank.execute "alice" sampleDb = (sampleDb, some 2) :=
  ⟨((cache_read_epoch_invalidation sampleDb "alice").1 3 (some [7]) rfl).1 (by decide),
    ((cache_read_epoch_invalidation sampleDb "alice").2.2.1 5 (some 2) rfl).2 (by decide)⟩

/-- C3: the immortal fact is a one-way latch: a stored row with
has_achieved true is served as some true and never deleted, whatever the
current epoch; the row is deleted with a none result exactly when the
current epoch exceeds the stamp and has_achieved is false. -/
theorem cached_immortal_latch (s : DbState) (uuid : String) :
    (∀ e, tableLookup s.role_immortal_cache uuid = some (e, some true) →
      CachedImmortal.execute uuid s = (s, some true)) ∧
    (∀ e ha, tableLookup s.role_immortal_cache uuid = some (e, ha) →
      (CachedImmortal.execute uuid s =
          ({ s with role_immortal_cache := tableDelete s.role_immortal_cache uuid }, none) ↔
        (currentBingoId s > e ∧ ha.getD false = false))) := by
  constructor
  · intro e hrow
    simp only [CachedImmortal.execute, hrow]
    rw [if_neg]
    · rfl
    · intro hc
      exact hc.2 rfl
  · intro e ha hrow
    constructor
    · intro heq
      by_cases hcond : currentBingoId s > e ∧ ha.getD false = false
      · exact hcond
      · exfalso
        have hother : CachedImmortal.execute uuid s = (s, some (ha.getD false)) := by
          simp only [CachedImmortal.execute, hrow]
          rw [if_neg]
          intro hc
          exact hcond ⟨hc.1, by simpa using hc.2⟩
        rw [hother] at heq
        exact Option.noConfusion (congrArg Prod.snd heq)
    · intro hcond
      simp only [CachedImmortal.execute, hrow]
      rw [if_pos ⟨hcond.1, by simp [hcond.2]⟩]

/-- Witness for C3: alice's latch row stamped 3 keeps returning true under
current epoch 5, while carol's false row stamped 3 is deleted. -/
theorem cached_immortal_latch_witness :
    CachedImmortal.execute "alice" sampleDb = (sampleDb, some true) ∧
    CachedImmortal.execute "carol" sampleDb =
      ({ sampleDb with
          role_immortal_cache := tableDelete sampleDb.role_immortal_cache "carol" },
        none) :=
  ⟨(cached_immortal_latch sampleDb "alice").1 3 rfl,
    ((cached_immortal_latch sampleDb "carol").2 3 (some false) rfl).mpr
      ⟨by decide, rfl⟩⟩

/-- C4: CacheCompletions stamps the row with the write-time epoch, leaves
the epoch itself unchanged, and a CachedCompletions lookup on the
resulting store returns exactly the written bit set (the stored bytes
decode to the written fact). -/
theorem cache_completions_round_trip (s : DbState) (uuid : String) (fact : BitSet) :
    tableLookup (CacheCompletions.execute uuid fact s).role_completions_cache uuid =
      some (currentBingoId s, some fact.data) ∧
    currentBingoId (CacheCompletions.execute uuid fact s) = currentBingoId s ∧
    CachedCompletions.execute uuid (CacheCompletions.execute uuid fact s) =
      (CacheCompletions.execute uuid fact s, some fact) ∧
    BitSet.from_bytes fact.data = fact := by
  refine ⟨?_, rfl, read_after_write_completions s uuid fact, rfl⟩
  simp only [CacheCompletions.execute]
  exact tableLookup_insert_self _ _ _

/-- C5 counterexample: update_state does not store the previous state as
the new state's referrer for every new state: a SelectEntry target has no
referrer slot (the catch-all arm of the Rust match does nothing), so the
previous state ViewEntry 1 0 is dropped, not stored. -/
theorem backtrack_update_state_counterexample :
    ¬ (HobEditState.update_state (.ViewEntry 1 0 none)
        (.SelectEntry 0 none)).take_referrer = some (.ViewEntry 1 0 none) := by
  simp [HobEditState.update_state, HobEditState.take_referrer]

/-- C5 amended: update_state replaces the session's state with n; when n
is a drill-down variant (ViewEntry or ViewSubentry) the previous state s
is stored as n's referrer, and restoring with take_referrer_or yields
exactly s; when n is SelectEntry the previous state is dropped; restoring
when no referrer exists yields the supplied default (take_referrer_or is
total, so no panic); and end to end through the component dispatcher, a
back interaction after a drill-down restores the pre-drill-down state,
while a back interaction with no referrer lands on the default root
SelectEntry 0 state. -/
theorem backtrack_update_restore (s d : HobEditState) :
    (∀ id page r,
      HobEditState.update_state s (.ViewEntry id page r) = .ViewEntry id page (some s) ∧
      (HobEditState.update_state s (.ViewEntry id page r)).take_referrer_or d = s) ∧
    (∀ id entry_id r,
      HobEditState.update_state s (.ViewSubentry id entry_id r) =
        .ViewSubentry id entry_id (some s) ∧
      (HobEditState.update_state s (.ViewSubentry id entry_id r)).take_referrer_or d = s) ∧
    (∀ page q, HobEditState.update_state s (.SelectEntry page q) = .SelectEntry page q) ∧
    (s.take_referrer = none → s.take_referrer_or d = d) ∧
    (∀ id page r,
      (component (viewEntryBack (.ok ()))
        (HobEditState.update_state s (.ViewEntry id page r))).1 = s) ∧
    (∀ id page,
      (component (viewEntryBack (.ok ())) (.ViewEntry id page none)).1 =
        .SelectEntry 0 none) := by
  refine ⟨fun id page r => ⟨rfl, rfl⟩, fun id e r => ⟨rfl, rfl⟩, fun p q => rfl, ?_,
    fun id page r => rfl, fun id page => rfl⟩
  intro h
  simp [HobEditState.take_referrer_or, h]

/-- Witness for the amended C5: drilling down from ViewEntry 7 0 and
backing out restores it, and backing out with no referrer yields the
supplied default. -/
theorem backtrack_update_restore_witness :
    (HobEditState.update_state (.ViewEntry 7 0 none)
        (.ViewEntry 9 2 none)).take_referrer_or (.SelectEntry 1 none) =
      .ViewEntry 7 0 none ∧
    (HobEditState.ViewEntry 7 0 none).take_referrer_or (.SelectEntry 1 none) =
      .SelectEntry 1 none :=
  ⟨((backtrack_update_restore (.ViewEntry 7 0 none) (.SelectEntry 1 none)).1 9 2 none).2,
    (backtrack_update_restore (.ViewEntry 7 0 none) (.SelectEntry 1 none)).2.2.2.1 rfl⟩

/-- C6 counterexample: the goto_page handler mutates the page in place
before its fallible menu generation; when generation fails, the error is
propagated, yet the already-incremented page is retained, so the session
state after handling (SelectEntry page 1) differs from the state before
(SelectEntry page 0). -/
theorem interaction_error_atomicity_counterexample :
    (component (selectEntryGotoPage "next" (.error "database error"))
        (.SelectEntry 0 none)).1 ≠ .SelectEntry 0 none ∧
    (component (selectEntryGotoPage "next" (.error "database error"))
        (.SelectEntry 0 none)).2 = .error "database error" := by
  constructor
  · simp [component, selectEntryGotoPage, Except.map]
  · rfl

/-- C6 amended: when a handler returns an error, the component dispatcher
applies no state change of its own: the session state is exactly the state
the handler's in-place mutations left behind (so a handler that does not
mutate in place leaves the state unchanged), the error is the caller's
result, and the session remains usable: any subsequent interaction
proceeds from that state exactly as it would have. -/
theorem interaction_error_atomicity (handler : HobHandler) (state : HobEditState)
    (e : String) (h : (handler state).2 = .error e) :
    (component handler state).1 = (handler state).1 ∧
    (component handler state).2 = .error e ∧
    ((handler state).1 = state → (component handler state).1 = state) ∧
    (∀ handler2 : HobHandler,
      component handler2 (component handler state).1 =
        component handler2 (handler state).1) := by
  have h1 : component handler state = ((handler state).1, Except.error e) := by
    rcases hh : handler state with ⟨s', r⟩
    rw [hh] at h
    simp only at h
    subst h
    simp [component, hh]
  rw [h1]
  exact ⟨rfl, rfl, fun hs => hs, fun _ => rfl⟩

/-- Witness for the amended C6: a handler that fails without touching the
state (the goto_page handler dispatched against a mismatched variant)
leaves the session state unchanged and reports its error. -/
theorem interaction_error_atomicity_witness :
    (component (selectEntryGotoPage "next" (.error "database error"))
        (.ViewEntry 4 0 none)).1 = .ViewEntry 4 0 none ∧
    (component (selectEntryGotoPage "next" (.error "database error"))
        (.ViewEntry 4 0 none)).2 = .error "Invalid interaction: Unexpected action" :=
  ⟨(interaction_error_atomicity (selectEntryGotoPage "next" (.error "database error"))
      (.ViewEntry 4 0 none) "Invalid interaction: Unexpected action" rfl).2.2.1 rfl,
    (interaction_error_atomicity (selectEntryGotoPage "next" (.error "database error"))
      (.ViewEntry 4 0 none) "Invalid interaction: Unexpected action" rfl).2.1⟩

/-- An elapse step for an absent session id performs no disable edit. -/
lemma timeoutElapse_absent {α : Type} (reg : List (Nat × α)) (sid : Nat)
    (h : tableLookup reg sid = none) :
    (timeoutElapse reg sid).2 = false := by
  simp only [timeoutElapse, registryRemove, h]

/-- Every racing step only removes entries, so an absent session id stays
absent. -/
lemma sessionStepRun_preserves_absent {α : Type} (reg : List (Nat × α))
    (st : SessionStep) (sid : Nat) (h : tableLookup reg sid = none) :
    tableLookup (sessionStepRun reg st).1 sid = none := by
  cases st with
  | elapse sid2 =>
    simp only [sessionStepRun, timeoutElapse, registryRemove]
    cases htmp : tableLookup reg sid2 <;>
      simpa using tableLookup_delete_none reg sid sid2 h
  | close sid2 =>
    exact tableLookup_delete_none reg sid sid2 h

/-- No step of a run started without the session id in the registry can
perform the disable edit for it. -/
lemma disableCount_eq_zero {α : Type} (reg : List (Nat × α)) (sid : Nat)
    (steps : List SessionStep) (h : tableLookup reg sid = none) :
    disableCount (sessionSteps reg steps).2 sid = 0 := by
  induction steps generalizing reg with
  | nil => rfl
  | cons st rest ih =>
    have hrec := ih (sessionStepRun reg st).1 (sessionStepRun_preserves_absent reg st sid h)
    show disableCount ((st, (sessionStepRun reg st).2) ::
      (sessionSteps (sessionStepRun reg st).1 rest).2) sid = 0
    rw [disableCount, List.filter_cons]
    by_cases hp : (st == SessionStep.elapse sid && (sessionStepRun reg st).2) = true
    · exfalso
      have h1 : st = .elapse sid := eq_of_beq ((Bool.and_eq_true _ _).mp hp).1
      have h2 : (sessionStepRun reg st).2 = true := ((Bool.and_eq_true _ _).mp hp).2
      subst h1
      rw [show (sessionStepRun reg (.elapse sid)) = timeoutElapse reg sid from rfl,
        timeoutElapse_absent reg sid h] at h2
      exact Bool.noConfusion h2
    · rw [Bool.not_eq_true] at hp
      rw [hp]
      simpa [disableCount] using hrec

/-- A successful elapse removes the session id, so afterwards it is
absent. -/
lemma elapse_removes {α : Type} (reg : List (Nat × α)) (sid : Nat) :
    tableLookup (sessionStepRun reg (.elapse sid)).1 sid = none := by
  simp only [sessionStepRun, timeoutElapse, registryRemove]
  cases htmp : tableLookup reg sid <;> simpa using tableLookup_delete_self reg sid

/-- C7: the timeout supervisor performs the disable-controls edit at most
once per session: an elapse whose registry removal returns none is a
no-op on the registry and performs no edit, and across every serialized
interleaving of racing removal paths (timeout expiries and explicit
closes) the disable edit for a fixed session id happens at most once. -/
theorem timeout_invalidation_at_most_once {α : Type} (reg : List (Nat × α))
    (sid : Nat) (steps : List SessionStep) :
    (tableLookup reg sid = none → timeoutElapse reg sid = (reg, false)) ∧
    disableCount (sessionSteps reg steps).2 sid ≤ 1 := by
  constructor
  · intro h
    simp only [timeoutElapse, registryRemove, h, tableDelete_of_lookup_none reg sid h]
  · induction steps generalizing reg with
    | nil => exact Nat.zero_le 1
    | cons st rest ih =>
      show disableCount ((st, (sessionStepRun reg st).2) ::
        (sessionSteps (sessionStepRun reg st).1 rest).2) sid ≤ 1
      rw [disableCount, List.filter_cons]
      by_cases hp : (st == SessionStep.elapse sid && (sessionStepRun reg st).2) = true
      · have h1 : st = .elapse sid := eq_of_beq ((Bool.and_eq_true _ _).mp hp).1
        subst h1
        have hzero := disableCount_eq_zero (sessionStepRun reg (.elapse sid)).1 sid rest
          (elapse_removes reg sid)
        have h2 : (sessionStepRun reg (.elapse sid)).2 = true :=
          ((Bool.and_eq_true _ _).mp hp).2
        rw [disableCount] at hzero
        simp [h2, hzero]
      · rw [Bool.not_eq_true] at hp
        rw [hp]
        exact ih (sessionStepRun reg st).1

/-- Witness for C7 on a one-session registry: an elapse for an unknown id
is a pure no-op, and two racing expiries of the same session disable it
exactly once. -/
theorem timeout_invalidation_at_most_once_witness :
    timeoutElapse ([(1, 0)] : List (Nat × Nat)) 2 = ([(1, 0)], false) ∧
    disableCount
      (sessionSteps ([(1, 0)] : List (Nat × Nat))
        [SessionStep.elapse 1, SessionStep.elapse 1]).2 1 ≤ 1 :=
  ⟨(timeout_invalidation_at_most_once ([(1, 0)] : List (Nat × Nat)) 2 []).1 rfl,
    (timeout_invalidation_at_most_once ([(1, 0)] : List (Nat × Nat)) 1
      [SessionStep.elapse 1, SessionStep.elapse 1]).2⟩

/-- C8: in the bingo-completions portion of player_roles, a
CacheCompletions request is issued if and only if the lookup missed and
either the current bingo has already ended (now is past its end
timestamp) or the fetched completions contain the current bingo's id; on
a miss the issued write carries the fetched completions as a bit set and
the fetched list is used either way; on a hit nothing is written and the
cached bit set is used. -/
theorem player_roles_conditional_cache_write (uuid : String) (now bingo_end : Int)
    (current_bingo_id : Nat) (cache_result : Option BitSet) (fetched : List Nat) :
    ((playerRolesCompletionsStep uuid now bingo_end current_bingo_id
        cache_result fetched).1 ≠ [] ↔
      (cache_result = none ∧
        (now > bingo_end ∨ fetched.contains current_bingo_id = true))) ∧
    (cache_result = none →
      ((now > bingo_end ∨ fetched.contains current_bingo_id = true) →
        (playerRolesCompletionsStep uuid now bingo_end current_bingo_id
            cache_result fetched).1 =
          [DbReq.cacheCompletions uuid (BitSet.from_indexes fetched)]) ∧
      (¬ (now > bingo_end ∨ fetched.contains current_bingo_id = true) →
        (playerRolesCompletionsStep uuid now bingo_end current_bingo_id
            cache_result fetched).1 = []) ∧
      (playerRolesCompletionsStep uuid now bingo_end current_bingo_id
          cache_result fetched).2 = fetched) ∧
    (∀ b, cache_result = some b →
      (playerRolesCompletionsStep uuid now bingo_end current_bingo_id
          cache_result fetched).1 = [] ∧
      (playerRolesCompletionsStep uuid now bingo_end current_bingo_id
          cache_result fetched).2 = b.get_all_set) := by
  cases cache_result with
  | some b =>
    refine ⟨?_, fun h => Option.noConfusion h, fun b' hb => ?_⟩
    · simp [playerRolesCompletionsStep]
    · rw [Option.some.injEq] at hb
      subst hb
      exact ⟨rfl, rfl⟩
  | none =>
    by_cases hcond : now > bingo_end ∨ fetched.contains current_bingo_id = true
    · have hprop : bingo_end < now ∨ current_bingo_id ∈ fetched := by
        rcases hcond with hc | hc
        · exact Or.inl hc
        · exact Or.inr (by simpa using hc)
      refine ⟨?_, fun _ => ⟨fun _ => ?_, fun hn => absurd hcond hn, ?_⟩,
        fun b' hb => Option.noConfusion hb⟩
      · simp [playerRolesCompletionsStep, hprop]
      · simp [playerRolesCompletionsStep, hprop]
      · simp [playerRolesCompletionsStep, hprop]
    · have hprop : ¬ (bingo_end < now ∨ current_bingo_id ∈ fetched) := by
        intro hc
        rcases hc with hc | hc
        · exact hcond (Or.inl hc)
        · exact hcond (Or.inr (by simpa using hc))
      refine ⟨?_, fun _ => ⟨fun hc => absurd hc hcond, fun _ => ?_, ?_⟩,
        fun b' hb => Option.noConfusion hb⟩
      · simp [playerRolesCompletionsStep, hprop]
      · simp [playerRolesCompletionsStep, hprop]
      · simp [playerRolesCompletionsStep, hprop]

/-- Witness for C8: a miss during a live bingo with the current bingo id
among the fetched completions writes the cache; a miss during a live
bingo without it does not. -/
theorem player_roles_conditional_cache_write_witness :
    (playerRolesCompletionsStep "alice" 50 100 5 none [3, 5]).1 =
      [DbReq.cacheCompletions "alice" (BitSet.from_indexes [3, 5])] ∧
    (playerRolesCompletionsStep "alice" 50 100 5 none [3]).1 = [] :=
  ⟨((player_roles_conditional_cache_write "alice" 50 100 5 none [3, 5]).2.1 rfl).1
      (Or.inr (by decide)),
    ((player_roles_conditional_cache_write "alice" 50 100 5 none [3]).2.1 rfl).2.1
      (by intro h; rcases h with h | h
          · exact absurd h (by decide)
          · exact absurd h (by decide))⟩

/-- C9: the database thread signals readiness with ok exactly when every
initialisation step (database open, pragma, and the three per-module
table batches) succeeded; on an initialisation failure the error is sent
on the readiness channel instead, the request loop is never entered (no
reply is ever produced), and main turns that readiness value into a
startup error, so the process exits without serving any request. -/
theorem startup_readiness_abort (o : InitOutcomes) (conn0 : DbState)
    (queue : List DbReq) :
    ((start_db_thread o conn0 queue).1 = .ok () ↔
      (o.open_db = .ok () ∧ o.pragma_foreign_keys = .ok () ∧ o.hob_tables = .ok () ∧
        o.role_tables = .ok () ∧ o.shared_tables = .ok ())) ∧
    (∀ e, initialise_database o = .error e →
      start_db_thread o conn0 queue = (.error e, []) ∧
      main_startup (some (start_db_thread o conn0 queue).1) =
        .error ("Failed to initialise database thread: " ++ e)) := by
  obtain ⟨o1, o2, o3, o4, o5⟩ := o
  cases o1 <;> cases o2 <;> cases o3 <;> cases o4 <;> cases o5 <;>
    simp [start_db_thread, initialise_database, main_startup, Bind.bind, Except.bind]

/-- A concrete failing initialisation: the hob table batch fails. -/
def initFail : InitOutcomes :=
  { open_db := .ok ()
    pragma_foreign_keys := .ok ()
    hob_tables := .error "disk full"
    role_tables := .ok ()
    shared_tables := .ok () }

/-- Witness for C9: with the hob table batch failing, the readiness
channel carries the error, no request is served, and main aborts. -/
theorem startup_readiness_abort_witness :
    start_db_thread initFail sampleDb [DbReq.cachedCompletions "alice"] =
      (.error "disk full", []) ∧
    main_startup (some (start_db_thread initFail sampleDb
        [DbReq.cachedCompletions "alice"]).1) =
      .error ("Failed to initialise database thread: " ++ "disk full") :=
  (startup_readiness_abort initFail sampleDb [DbReq.cachedCompletions "alice"]).2
    "disk full" rfl

end BBBot
